import Mathlib

/-!
Verification development for the time-series replicator
(`cognite/replicator/time_series.py`).

The Python module is shallowly embedded: records become a Lean structure,
Python dicts become association lists with Python's insertion-order /
overwrite semantics, Python exceptions (`KeyError`, `ValueError`,
`TypeError`) become an `Except` error type, and the network calls issued
by `replicate` become an explicit effect trace.  Functions of the sibling
`replication` module, which is not part of the sources at hand, are
modelled from the specification and marked as such in their doc comments.
-/

namespace CogniteReplicator

/-- A CDF time series record as manipulated by `time_series.py`.
Every attribute the module touches is a field; Python `None` is `Option.none`.
A Python metadata value of `None` and an empty metadata dict are both
modelled as `[]` (the module only ever tests truthiness of the whole dict,
where both are falsy, or indexes into it, where both fail). -/
structure TimeSeries where
  id : Option Int := none
  external_id : Option String := none
  name : Option String := none
  is_string : Option Bool := none
  metadata : List (String × String) := []
  unit : Option String := none
  asset_id : Option Int := none
  is_step : Option Bool := none
  description : Option String := none
  security_categories : Option (List Int) := none
  legacy_name : Option String := none
deriving DecidableEq, Inhabited, Repr

/-- The Python exceptions the embedded code can raise. -/
inductive PyErr where
  | keyError (key : String)
  | valueError
  | typeError
deriving DecidableEq, Repr

/-- Decimal value of a list of digit characters. -/
def digitsToNat (l : List Char) : Nat :=
  l.foldl (fun a c => a * 10 + (c.toNat - 48)) 0

/-- Parse a nonempty all-digit character list to a natural number. -/
def decDigits? (l : List Char) : Option Nat :=
  if l.isEmpty then none
  else if l.all Char.isDigit then some (digitsToNat l) else none

/-- Strip leading and trailing whitespace. -/
def trimChars (l : List Char) : List Char :=
  ((l.dropWhile Char.isWhitespace).reverse.dropWhile Char.isWhitespace).reverse

/-- Python's `int(str)`: optional surrounding whitespace, optional sign,
then decimal digits; anything else raises `ValueError` (here: `none`). -/
def pyInt? (s : String) : Option Int :=
  match trimChars s.toList with
  | '-' :: rest => (decDigits? rest).map (fun n => -(n : Int))
  | '+' :: rest => (decDigits? rest).map (fun n => (n : Int))
  | t => (decDigits? t).map (fun n => (n : Int))

/-- Python-dict insertion: overwriting an existing key keeps its position
(first-insertion order), a fresh key is appended.  Models both dict
comprehensions and `d[k] = v`. -/
def dictInsert {κ β : Type} [BEq κ] (d : List (κ × β)) (k : κ) (v : β) :
    List (κ × β) :=
  if d.any (fun p => p.1 == k) then
    d.map (fun p => if p.1 == k then (k, v) else p)
  else d ++ [(k, v)]

/-- Python truthiness of an optional integer attribute (`None` and `0` are
falsy). -/
def optIntTruthy : Option Int → Bool
  | none => false
  | some n => !(n == 0)

/-! ## Garbage-collection sweeps (source lines 130-178) -/

/-- The `_replicatedInternalId` a destination record contributes to the
stale-replica sweep: the parse of its metadata value when present (an
empty-string value is falsy in Python and parses to nothing here either
way, so `Option.bind` captures the skip). -/
def parsedProvId (ts : TimeSeries) : Option Int :=
  (ts.metadata.lookup "_replicatedInternalId").bind pyInt?

/-- One destination record's contribution to the dict comprehension of
`remove_replicated_if_not_in_src` (lines 169-173):
`ok none` = filtered out by `if ts.metadata and ts.metadata[k]`,
`ok (some (srcId, dstId))` = an entry, `error` = the comprehension raises
(`KeyError` on a truthy dict lacking the key, `ValueError` on `int`). -/
def sweepBEntry (ts : TimeSeries) : Except PyErr (Option (Int × Option Int)) :=
  if ts.metadata.isEmpty then .ok none
  else
    match ts.metadata.lookup "_replicatedInternalId" with
    | none => .error (.keyError "_replicatedInternalId")
    | some v =>
      if v == "" then .ok none
      else
        match pyInt? v with
        | none => .error .valueError
        | some k => .ok (some (k, ts.id))

/-- The dict comprehension of lines 169-173, entry by entry over the
destination listing, accumulating a Python dict. -/
def sweepBDictAux (d : List (Int × Option Int)) :
    List TimeSeries → Except PyErr (List (Int × Option Int))
  | [] => .ok d
  | ts :: rest =>
    match sweepBEntry ts with
    | .error e => .error e
    | .ok none => sweepBDictAux d rest
    | .ok (some (k, v)) => sweepBDictAux (dictInsert d k v) rest

/-- `{ts.id for ts in client_src.time_series.list(limit=None)}` (line 166):
the set of source internal ids (`None` ids can never equal a parsed `int`,
so dropping them is membership-equivalent). -/
def src_ids (src : List TimeSeries) : List Int :=
  src.filterMap (fun ts => ts.id)

/-- `remove_replicated_if_not_in_src` (lines 155-178) on the source and
destination listings: build `dst_id_list` by dict comprehension, keep the
destination ids whose source id is absent from `src_ids`, and return that
delete list (the same list is passed to the bulk delete call). -/
def remove_replicated_if_not_in_src (src dst : List TimeSeries) :
    Except PyErr (List (Option Int)) :=
  (sweepBDictAux [] dst).map (fun d =>
    (d.filter (fun p => !((src_ids src).contains p.1))).map (fun p => p.2))

/-- One destination record's test in `remove_not_replicated_in_dst`
(line 145): `ok true` = has truthy `_replicatedSource` (kept),
`ok false` = appended to the delete list, `error` = `KeyError` on a truthy
metadata dict lacking the key. -/
def sweepAEntry (ts : TimeSeries) : Except PyErr Bool :=
  if ts.metadata.isEmpty then .ok false
  else
    match ts.metadata.lookup "_replicatedSource" with
    | none => .error (.keyError "_replicatedSource")
    | some v => .ok (!(v == ""))

/-- The loop of lines 144-149 collecting `not_copied_list`. -/
def sweepAAux : List TimeSeries → Except PyErr (List (Option Int))
  | [] => .ok []
  | ts :: rest =>
    match sweepAEntry ts with
    | .error e => .error e
    | .ok true => sweepAAux rest
    | .ok false => (sweepAAux rest).map (fun l => ts.id :: l)

/-- `remove_not_replicated_in_dst` (lines 130-152) on the destination
listing: delete and return every record id whose metadata lacks a truthy
`_replicatedSource`. -/
def remove_not_replicated_in_dst (dst : List TimeSeries) :
    Except PyErr (List (Option Int)) :=
  sweepAAux dst

/-- The per-record criterion the orphan sweep actually deletes by: empty
metadata, or a `_replicatedSource` value equal to the empty string. -/
def orphanDeleted (ts : TimeSeries) : Bool :=
  ts.metadata.isEmpty || (ts.metadata.lookup "_replicatedSource" == some "")

/-- The per-record criterion the stale-replica sweep deletes by: a parsed
`_replicatedInternalId` that is absent from the source ids. -/
def staleDeleted (src : List TimeSeries) (ts : TimeSeries) : Bool :=
  match parsedProvId ts with
  | some k => !((src_ids src).contains k)
  | none => false

/-! ## Transforms (source lines 11-70) and the filter (lines 73-83) -/

/-- Modelled from the spec: Identity Map, `translateIds` (§4.1) — the
`replication.get_asset_ids` helper, whose source is not at hand.  For each
input id, look it up in the relation map; a null id or an id absent from
the map yields null. -/
def get_asset_ids (ids : List (Option Int)) (m : List (Int × Int)) :
    List (Option Int) :=
  ids.map (fun oi => oi.bind (fun i => m.lookup i))

/-- Modelled from the spec: Provenance Tagger (§4.3, §3) — the
`replication.new_metadata` helper, whose source is not at hand.  A copy of
the source record's metadata with the three reserved keys overwritten:
`_replicatedSource` = source project name, `_replicatedTime` = the run
timestamp, `_replicatedInternalId` = the source record's internal id. -/
def new_metadata (src : TimeSeries) (project_src : String) (runtime : Int) :
    List (String × String) :=
  dictInsert
    (dictInsert
      (dictInsert src.metadata "_replicatedSource" project_src)
      "_replicatedTime" (toString runtime))
    "_replicatedInternalId"
    (match src.id with
     | some i => toString i
     | none => "")

/-- The asset-id expression shared by lines 34 and 66:
`get_asset_ids([src_ts.asset_id], src_dst_ids_assets)[0] if src_ts.asset_id
else None`. -/
def asset_id_expr (src_ts : TimeSeries) (src_dst_ids_assets : List (Int × Int)) :
    Option Int :=
  if optIntTruthy src_ts.asset_id then
    (get_asset_ids [src_ts.asset_id] src_dst_ids_assets).getD 0 none
  else none

/-- `create_time_series` (lines 11-39): a fresh record built field by field
from the source record. -/
def create_time_series (src_ts : TimeSeries) (src_dst_ids_assets : List (Int × Int))
    (project_src : String) (runtime : Int) : TimeSeries :=
  { external_id := src_ts.external_id
    name := src_ts.name
    is_string := src_ts.is_string
    metadata := new_metadata src_ts project_src runtime
    unit := src_ts.unit
    asset_id := asset_id_expr src_ts src_dst_ids_assets
    is_step := src_ts.is_step
    description := src_ts.description
    security_categories := src_ts.security_categories
    legacy_name := src_ts.external_id
    id := none }

/-- The nine field assignments of `update_time_series` (lines 61-69) as a
value transform on the destination record: every right-hand side reads only
the source record and the maps, so the sequential assignments equal one
simultaneous record update. `id` and `legacy_name` are not assigned. -/
def update_fields (src_ts dst_ts : TimeSeries) (src_dst_ids_assets : List (Int × Int))
    (project_src : String) (runtime : Int) : TimeSeries :=
  { dst_ts with
    external_id := src_ts.external_id
    name := src_ts.name
    is_string := src_ts.is_string
    metadata := new_metadata src_ts project_src runtime
    unit := src_ts.unit
    asset_id := asset_id_expr src_ts src_dst_ids_assets
    is_step := src_ts.is_step
    description := src_ts.description
    security_categories := src_ts.security_categories }

/-- `update_time_series` (lines 42-70) with Python's object store explicit:
the heap is a list of records, the destination record is passed by
reference (its index), the field assignments write through that reference,
and the function returns the heap and the reference it got — not a copy. -/
def update_time_series (heap : List TimeSeries) (src_ts : TimeSeries) (dst_ref : Nat)
    (src_dst_ids_assets : List (Int × Int)) (project_src : String) (runtime : Int) :
    List TimeSeries × Nat :=
  (heap.set dst_ref
    (update_fields src_ts (heap.getD dst_ref default) src_dst_ids_assets
      project_src runtime),
   dst_ref)

/-- Characters of `hay` contain the characters of `pat` as a contiguous
run (Python's `pat in hay` on strings). -/
def strContainsChars : List Char → List Char → Bool
  | hay, pat =>
    pat.isPrefixOf hay ||
      (match hay with
       | [] => false
       | _ :: t => strContainsChars t pat)

/-- Python's `sub in s` for strings: substring containment. -/
def pyInStr (sub s : String) : Bool :=
  strContainsChars s.toList sub.toList

/-- `filter_away_service_account_ts` (lines 73-83): the list comprehension
`[ts for ts in ts_src if "service_account_metrics" not in ts.name]`; a
record whose `name` is `None` makes the membership test raise `TypeError`. -/
def filter_away_service_account_ts :
    List TimeSeries → Except PyErr (List TimeSeries)
  | [] => .ok []
  | ts :: rest =>
    match ts.name with
    | none => .error .typeError
    | some n =>
      (filter_away_service_account_ts rest).map (fun r =>
        if pyInStr "service_account_metrics" n then r else ts :: r)

/-! ## Reconcile-and-apply (`copy_ts`, lines 86-127) and `replicate`
(lines 181-266), with destination-store calls as an effect trace -/

/-- A network call issued against the destination store, or a worker
spawned by the threaded distributor. -/
inductive Effect where
  | createCall (items : List TimeSeries)
  | updateCall (items : List TimeSeries)
  | deleteCall (ids : List (Option Int))
  | threadSpawn (chunk : List TimeSeries)
deriving DecidableEq, Repr

/-- Modelled from the spec: Batch Reconciler (§4.4) and Record Classifier
(§4.2) — `replication.make_objects_batch`, whose source is not at hand.
One pass over the source records: a record whose internal id has a match in
the identity map becomes an update (the transform applied to the matched
destination record), any other becomes a create; the classifier never
produces `unchanged`, so that list is empty. -/
def make_objects_batch (src_objects : List TimeSeries)
    (src_id_dst_obj : List (Int × TimeSeries)) (src_dst_ids_assets : List (Int × Int))
    (project_src : String) (replicated_runtime : Int) :
    List TimeSeries × List TimeSeries × List TimeSeries :=
  (src_objects.filterMap (fun ts =>
      match ts.id.bind (fun i => src_id_dst_obj.lookup i) with
      | none => some (create_time_series ts src_dst_ids_assets project_src replicated_runtime)
      | some _ => none),
   src_objects.filterMap (fun ts =>
      match ts.id.bind (fun i => src_id_dst_obj.lookup i) with
      | some dst => some (update_fields ts dst src_dst_ids_assets project_src replicated_runtime)
      | none => none),
   [])

/-- `copy_ts` (lines 86-127): reconcile the batch, then issue one bulk
create call when the create list is nonempty and one bulk update call when
the update list is nonempty.  The retry wrapper (`replication.retry`,
Modelled from the spec §4.7) only re-issues the same call on transient
store errors, which this failure-free store model does not produce, so
each call appears once. -/
def copy_ts (src_ts : List TimeSeries) (src_id_dst_ts : List (Int × TimeSeries))
    (src_dst_ids_assets : List (Int × Int)) (project_src : String) (runtime : Int) :
    List Effect :=
  match make_objects_batch src_ts src_id_dst_ts src_dst_ids_assets project_src runtime with
  | (create_ts, update_ts, _) =>
    (if create_ts.isEmpty then [] else [.createCall create_ts]) ++
      (if update_ts.isEmpty then [] else [.updateCall update_ts])

/-- Modelled from the spec: Identity Map `build` (§4.1) —
`replication.make_id_object_map`, whose source is not at hand.  For every
destination record whose `_replicatedInternalId` parses, map that source id
to the record; parse failures are skipped, collisions are last-write-wins
in listing order. -/
def make_id_object_map (dst : List TimeSeries) : List (Int × TimeSeries) :=
  dst.foldl (fun d ts =>
    match parsedProvId ts with
    | some k => dictInsert d k ts
    | none => d) []

/-- Modelled from the spec: Identity Map `existingMapping` (§4.1) —
`replication.existing_mapping`, whose source is not at hand.  For every
destination asset with valid provenance (a parseable `_replicatedInternalId`
and an assigned internal id), map its source-side internal id to its
destination-side internal id.  Assets share the record shape used here. -/
def existing_mapping (assets_dst : List TimeSeries) : List (Int × Int) :=
  assets_dst.foldl (fun d a =>
    match parsedProvId a, a.id with
    | some k, some i => dictInsert d k i
    | _, _ => d) []

/-- Contiguous chunks of size `n` (the last chunk possibly smaller);
`n = 0` degenerates to a single chunk. -/
def chunkList {α : Type} (n : Nat) (l : List α) : List (List α) :=
  if l.isEmpty then []
  else if n = 0 then [l]
  else l.take n :: chunkList n (l.drop n)
termination_by l.length
decreasing_by
  rename_i h1 h2
  have hl : l ≠ [] := by simpa using h1
  have hn : 0 < n := Nat.pos_of_ne_zero h2
  have hlen : 0 < l.length := List.length_pos.mpr hl
  simp only [List.length_drop]
  omega

/-- Modelled from the spec: Work Distributor (§4.6) — `replication.thread`,
whose source is not at hand.  The source records are partitioned into
contiguous chunks, one per worker of the pool (chunk size =
ceil(length / num_threads)); each worker is spawned and runs the copy pass
on its own chunk with the shared read-only maps. -/
def thread (num_threads : Nat) (src_objects : List TimeSeries)
    (src_id_dst_obj : List (Int × TimeSeries)) (src_dst_ids_assets : List (Int × Int))
    (project_src : String) (replicated_runtime : Int) : List Effect :=
  let chunk_size := (src_objects.length + num_threads - 1) / num_threads
  (chunkList chunk_size src_objects).flatMap (fun chunk =>
    .threadSpawn chunk ::
      copy_ts chunk src_id_dst_obj src_dst_ids_assets project_src replicated_runtime)

/-- The copy phase of `replicate` (lines 229-248): a single inline
`copy_ts` pass over the whole filtered listing when it fits in one batch,
the threaded distributor otherwise. -/
def copyPhase (ts_src_not_service : List TimeSeries)
    (src_id_dst_ts : List (Int × TimeSeries)) (src_dst_ids_assets : List (Int × Int))
    (project_src : String) (runtime : Int) (batch_size num_threads : Nat) :
    List Effect :=
  if ts_src_not_service.length > batch_size then
    thread num_threads ts_src_not_service src_id_dst_ts src_dst_ids_assets
      project_src runtime
  else
    copy_ts ts_src_not_service src_id_dst_ts src_dst_ids_assets project_src runtime

/-- `replicate` (lines 181-266) over the store states: the source listing,
destination listing and destination asset listing stand in for the two
clients (each `list` call returns the same listing), and the run timestamp
is a parameter since `time.time()` is external.  Returns the trace of
destination-store effects in program order together with the exception, if
any, that aborted the run (a raised `KeyError`/`ValueError` propagates out
of a sweep before its delete call; a raised sweep-B exception prevents
sweep A from running). -/
def replicate (ts_src ts_dst assets_dst : List TimeSeries) (project_src : String)
    (replicated_runtime : Int) (batch_size : Nat) (num_threads : Nat := 1)
    (delete_replicated_if_not_in_src : Bool := false)
    (delete_not_replicated_in_dst : Bool := false) : List Effect × Option PyErr :=
  let src_id_dst_ts := make_id_object_map ts_dst
  let src_dst_ids_assets := existing_mapping assets_dst
  match filter_away_service_account_ts ts_src with
  | .error e => ([], some e)
  | .ok ts_src_not_service =>
    let copyEff := copyPhase ts_src_not_service src_id_dst_ts src_dst_ids_assets
      project_src replicated_runtime batch_size num_threads
    if delete_replicated_if_not_in_src then
      match remove_replicated_if_not_in_src ts_src ts_dst with
      | .error e => (copyEff, some e)
      | .ok diff_list =>
        let eff1 := copyEff ++ [.deleteCall diff_list]
        if delete_not_replicated_in_dst then
          match remove_not_replicated_in_dst ts_dst with
          | .error e => (eff1, some e)
          | .ok not_copied_list => (eff1 ++ [.deleteCall not_copied_list], none)
        else (eff1, none)
    else
      if delete_not_replicated_in_dst then
        match remove_not_replicated_in_dst ts_dst with
        | .error e => (copyEff, some e)
        | .ok not_copied_list => (copyEff ++ [.deleteCall not_copied_list], none)
      else (copyEff, none)

/-! ## Lemmas about the orphan sweep -/

theorem sweepAEntry_false_iff (ts : TimeSeries) :
    sweepAEntry ts = .ok false ↔ orphanDeleted ts = true := by
  unfold sweepAEntry orphanDeleted
  by_cases hme : ts.metadata.isEmpty
  · simp [hme]
  · cases hlk : ts.metadata.lookup "_replicatedSource" with
    | none => simp [hme, hlk]
    | some v => by_cases hv : v = "" <;> simp [hme, hlk, hv]

theorem sweepAEntry_true_not_deleted (ts : TimeSeries)
    (h : sweepAEntry ts = .ok true) : orphanDeleted ts = false := by
  unfold sweepAEntry at h
  unfold orphanDeleted
  by_cases hme : ts.metadata.isEmpty
  · simp [hme] at h
  · cases hlk : ts.metadata.lookup "_replicatedSource" with
    | none => simp [hme, hlk] at h
    | some v =>
      simp only [hme, hlk, if_false, Bool.if_false_left] at h ⊢
      by_cases hv : v = "" <;> simp [hv] at h ⊢

theorem sweepAAux_ok_eq (dst : List TimeSeries) :
    ∀ l, sweepAAux dst = .ok l →
      l = (dst.filter orphanDeleted).map (fun ts => ts.id) := by
  induction dst with
  | nil =>
    intro l h
    simp only [sweepAAux, Except.ok.injEq] at h
    simp [h.symm]
  | cons ts rest ih =>
    intro l h
    simp only [sweepAAux] at h
    cases he : sweepAEntry ts with
    | error e => rw [he] at h; cases h
    | ok b =>
      rw [he] at h
      cases b with
      | true =>
        rw [List.filter_cons, sweepAEntry_true_not_deleted ts he]
        simpa using ih l h
      | false =>
        cases hr : sweepAAux rest with
        | error e => rw [hr] at h; cases h
        | ok rest_l =>
          rw [hr] at h
          have hl : l = ts.id :: rest_l := by
            simpa [Except.map] using h.symm
          rw [List.filter_cons, (sweepAEntry_false_iff ts).mp he]
          simp [hl, ih rest_l hr]

/-! ## Claims C2, C3, C4 -/

/-- C2 (code_bug evidence): malformed provenance is fatal to the
stale-replica sweep, not skipped — a destination record whose
`_replicatedInternalId` value does not parse as an integer makes the sweep
raise `ValueError`, and a record with nonempty metadata lacking the key
makes it raise `KeyError`. -/
theorem stale_sweep_malformed_is_fatal :
    remove_replicated_if_not_in_src []
        [({ id := some 1, metadata := [("_replicatedInternalId", "abc")] } : TimeSeries)]
      = .error .valueError
    ∧ remove_replicated_if_not_in_src []
        [({ id := some 2, metadata := [("otherKey", "x")] } : TimeSeries)]
      = .error (.keyError "_replicatedInternalId") :=
  ⟨by rfl, by rfl⟩

/-- C3 (counterexample): the orphan sweep does not delete exactly the
records lacking the `_replicatedSource` key — a record carrying the key
with an empty-string value is deleted anyway, and a record whose nonempty
metadata lacks the key makes the sweep raise instead of completing. -/
theorem orphan_sweep_claim_counterexample :
    remove_not_replicated_in_dst
        [({ id := some 1, metadata := [("_replicatedSource", "projA")] } : TimeSeries),
         ({ id := some 2, metadata := [("_replicatedSource", "")] } : TimeSeries)]
      = .ok [some 2]
    ∧ (({ id := some 2, metadata := [("_replicatedSource", "")] } : TimeSeries).metadata.lookup
        "_replicatedSource").isSome = true
    ∧ remove_not_replicated_in_dst [({ id := some 3, metadata := [("k", "v")] } : TimeSeries)]
      = .error (.keyError "_replicatedSource") :=
  ⟨by rfl, by rfl, by rfl⟩

/-- C3 (amended): whenever the orphan sweep completes, its delete list
consists, in listing order, of exactly the ids of the destination records
whose metadata is empty or whose `_replicatedSource` value is the empty
string (a record with nonempty metadata lacking the key instead aborts the
sweep with `KeyError`). -/
theorem orphan_sweep_deletes_exactly_untruthy (dst : List TimeSeries)
    (l : List (Option Int)) (h : remove_not_replicated_in_dst dst = .ok l) :
    l = (dst.filter orphanDeleted).map (fun ts => ts.id) :=
  sweepAAux_ok_eq dst l h

/-- Witness for C3's theorem at the spec's instance: one record with
provenance metadata and one without — exactly the one lacking metadata is
deleted. -/
theorem orphan_sweep_deletes_exactly_untruthy_witness :
    remove_not_replicated_in_dst
        [({ id := some 1, metadata := [("_replicatedSource", "projA")] } : TimeSeries),
         ({ id := some 2 } : TimeSeries)] = .ok [some 2]
    ∧ [(some 2 : Option Int)] =
        (([({ id := some 1, metadata := [("_replicatedSource", "projA")] } : TimeSeries),
           ({ id := some 2 } : TimeSeries)].filter orphanDeleted).map (fun ts => ts.id)) :=
  ⟨by rfl,
   orphan_sweep_deletes_exactly_untruthy
     [({ id := some 1, metadata := [("_replicatedSource", "projA")] } : TimeSeries),
      ({ id := some 2 } : TimeSeries)] [some 2] (by rfl)⟩

/-- C4 (counterexample): provenance presence is not decided by key
existence — a destination record whose metadata carries `_replicatedSource`
with an empty-string value is deleted by the orphan sweep even though the
key is present. -/
theorem orphan_presence_counterexample :
    remove_not_replicated_in_dst
        [({ id := some 7, metadata := [("_replicatedSource", "")] } : TimeSeries)]
      = .ok [some 7]
    ∧ ({ id := some 7, metadata := [("_replicatedSource", "")] } : TimeSeries).metadata.lookup
        "_replicatedSource" = some "" :=
  ⟨by rfl, by rfl⟩

/-- C4 (amended): provenance presence is decided by value truthiness, not
key existence — whenever the orphan sweep completes, every destination
record whose metadata carries `_replicatedSource` with an empty-string
value has its id on the delete list. -/
theorem orphan_sweep_truthiness_decides (dst : List TimeSeries)
    (l : List (Option Int)) (ts : TimeSeries)
    (h : remove_not_replicated_in_dst dst = .ok l) (hts : ts ∈ dst)
    (hv : ts.metadata.lookup "_replicatedSource" = some "") : ts.id ∈ l := by
  rw [sweepAAux_ok_eq dst l h]
  exact List.mem_map_of_mem _ (List.mem_filter.mpr ⟨hts, by simp [orphanDeleted, hv]⟩)

/-- Witness for C4's theorem at a concrete record with an empty-string
`_replicatedSource` value. -/
theorem orphan_sweep_truthiness_decides_witness :
    (some 8 : Option Int) ∈ ([some 8] : List (Option Int)) :=
  orphan_sweep_truthiness_decides
    [({ id := some 8, metadata := [("_replicatedSource", "")] } : TimeSeries)]
    [some 8]
    ({ id := some 8, metadata := [("_replicatedSource", "")] } : TimeSeries)
    (by rfl) (by simp) (by rfl)

/-! ## Claims C5, C6 -/

/-- C5 (counterexample): the update transform does not work on a copy —
after `update_time_series`, the destination-listing cell the caller holds a
reference to no longer contains the record it held before the call. -/
theorem update_mutates_snapshot_counterexample :
    ((update_time_series [({ id := some 5, name := some "old" } : TimeSeries)]
        ({ id := some 9, name := some "new" } : TimeSeries) 0 [] "p" 7).1)[0]?
      ≠ some ({ id := some 5, name := some "old" } : TimeSeries) := by
  decide

/-- C5 (amended): `update_time_series` overwrites every replicated field
(external id, name, is_string, metadata, unit, asset id, is_step,
description, security categories) with values derived from the source on
the matched destination record itself, in place: the caller's cell now
holds the overwritten record (its internal id preserved, no other cell
touched), and the function returns the same reference, not a copy. -/
theorem update_overwrites_every_field_in_place (heap : List TimeSeries)
    (src_ts : TimeSeries) (d : Nat) (m : List (Int × Int)) (proj : String)
    (rt : Int) (hd : d < heap.length) :
    (update_time_series heap src_ts d m proj rt).2 = d
    ∧ ((update_time_series heap src_ts d m proj rt).1)[d]? =
        some (update_fields src_ts (heap.getD d default) m proj rt)
    ∧ (∀ j, j ≠ d → ((update_time_series heap src_ts d m proj rt).1)[j]? = heap[j]?)
    ∧ (∀ dst_ts : TimeSeries,
        (update_fields src_ts dst_ts m proj rt).external_id = src_ts.external_id
        ∧ (update_fields src_ts dst_ts m proj rt).name = src_ts.name
        ∧ (update_fields src_ts dst_ts m proj rt).is_string = src_ts.is_string
        ∧ (update_fields src_ts dst_ts m proj rt).metadata = new_metadata src_ts proj rt
        ∧ (update_fields src_ts dst_ts m proj rt).unit = src_ts.unit
        ∧ (update_fields src_ts dst_ts m proj rt).asset_id = asset_id_expr src_ts m
        ∧ (update_fields src_ts dst_ts m proj rt).is_step = src_ts.is_step
        ∧ (update_fields src_ts dst_ts m proj rt).description = src_ts.description
        ∧ (update_fields src_ts dst_ts m proj rt).security_categories =
            src_ts.security_categories
        ∧ (update_fields src_ts dst_ts m proj rt).id = dst_ts.id) := by
  refine ⟨rfl, ?_, ?_, ?_⟩
  · exact List.getElem?_set_eq_of_lt _ hd
  · intro j hj
    exact List.getElem?_set_ne (Ne.symm hj)
  · intro dst_ts
    exact ⟨rfl, rfl, rfl, rfl, rfl, rfl, rfl, rfl, rfl, rfl⟩

/-- Witness for C5's amended theorem at a one-record heap. -/
theorem update_overwrites_every_field_in_place_witness :
    ((update_time_series [({ id := some 5, name := some "old" } : TimeSeries)]
        ({ id := some 9, name := some "new" } : TimeSeries) 0 [] "p" 7).1)[0]? =
      some (update_fields ({ id := some 9, name := some "new" } : TimeSeries)
        ([({ id := some 5, name := some "old" } : TimeSeries)].getD 0 default) [] "p" 7) :=
  (update_overwrites_every_field_in_place
    [({ id := some 5, name := some "old" } : TimeSeries)]
    ({ id := some 9, name := some "new" } : TimeSeries) 0 [] "p" 7 (by decide)).2.1

/-- C6 (confirmed): a source record whose parent asset id is null — or
whose parent asset id is absent from the relation map — yields create and
update material whose asset-id relation is null; no error is involved
(both transforms are total). -/
theorem unresolved_parent_is_null (src_ts : TimeSeries) (m : List (Int × Int))
    (proj : String) (rt : Int)
    (h : src_ts.asset_id = none ∨ ∃ a, src_ts.asset_id = some a ∧ m.lookup a = none) :
    (create_time_series src_ts m proj rt).asset_id = none
    ∧ ∀ dst_ts, (update_fields src_ts dst_ts m proj rt).asset_id = none := by
  have hexpr : asset_id_expr src_ts m = none := by
    rcases h with h | ⟨a, ha, hl⟩
    · simp [asset_id_expr, optIntTruthy, h]
    · by_cases h0 : a = 0
      · simp [asset_id_expr, optIntTruthy, ha, h0]
      · simp [asset_id_expr, optIntTruthy, ha, h0, get_asset_ids, hl]
  exact ⟨hexpr, fun _ => hexpr⟩

/-- Witness for C6's theorem at the spec's instance: parent id `99`,
relation map containing only `1 ↦ 501`. -/
theorem unresolved_parent_is_null_witness :
    (create_time_series ({ id := some 1, asset_id := some 99 } : TimeSeries)
        [(1, 501)] "p" 7).asset_id = none
    ∧ ∀ dst_ts, (update_fields ({ id := some 1, asset_id := some 99 } : TimeSeries)
        dst_ts [(1, 501)] "p" 7).asset_id = none :=
  unresolved_parent_is_null _ _ _ _ (Or.inr ⟨99, rfl, by rfl⟩)

/-! ## Lemmas about the stale-replica sweep -/

theorem sweepBEntry_eq_ok_some_iff (ts : TimeSeries) (k : Int) (v : Option Int) :
    sweepBEntry ts = .ok (some (k, v)) ↔ parsedProvId ts = some k ∧ v = ts.id := by
  unfold sweepBEntry
  by_cases hme : ts.metadata.isEmpty
  · have hnil : ts.metadata = [] := by simpa using hme
    simp [hme, parsedProvId, hnil]
  · cases hlk : ts.metadata.lookup "_replicatedInternalId" with
    | none => simp [hme, parsedProvId, hlk]
    | some s =>
      have hpar : parsedProvId ts = pyInt? s := by
        unfold parsedProvId
        rw [hlk]
        rfl
      by_cases hs : s = ""
      · subst hs
        simp [hme, hlk, hpar, show pyInt? "" = none from rfl]
      · have hsb : (s == "") = false := by simpa using hs
        cases hp : pyInt? s with
        | none => simp [hme, hlk, hsb, hpar, hp]
        | some k' =>
          rw [hpar, hp]
          simp only [hme, hlk, hsb, hp, Bool.false_eq_true, if_false,
            Except.ok.injEq, Option.some.injEq, Prod.mk.injEq]
          constructor
          · rintro ⟨rfl, h2⟩
            exact ⟨rfl, h2.symm⟩
          · rintro ⟨rfl, h2⟩
            exact ⟨rfl, h2.symm⟩

theorem sweepBEntry_ok_none_parsed_none (ts : TimeSeries)
    (h : sweepBEntry ts = .ok none) : parsedProvId ts = none := by
  unfold sweepBEntry at h
  unfold parsedProvId
  by_cases hme : ts.metadata.isEmpty
  · have hnil : ts.metadata = [] := by simpa using hme
    simp [hnil]
  · cases hlk : ts.metadata.lookup "_replicatedInternalId" with
    | none => simp [hlk]
    | some s =>
      by_cases hs : s = ""
      · subst hs
        simp [hlk, show pyInt? "" = none from rfl]
      · cases hp : pyInt? s with
        | none => simp [hlk, hp]
        | some k' => simp [hme, hlk, hs, hp] at h

theorem mem_dictInsert {κ β : Type} [BEq κ] [LawfulBEq κ] (d : List (κ × β))
    (k : κ) (v : β) (p : κ × β) (h : p ∈ dictInsert d k v) :
    p = (k, v) ∨ (p ∈ d ∧ p.1 ≠ k) := by
  unfold dictInsert at h
  by_cases hany : d.any (fun q => q.1 == k)
  · rw [if_pos hany] at h
    rcases List.mem_map.mp h with ⟨q, hq, hqe⟩
    by_cases hqk : q.1 == k
    · left
      rw [if_pos hqk] at hqe
      exact hqe.symm
    · right
      rw [if_neg hqk] at hqe
      subst hqe
      exact ⟨hq, by simpa using hqk⟩
  · rw [if_neg hany] at h
    rcases List.mem_append.mp h with h | h
    · right
      refine ⟨h, fun hpk => hany ?_⟩
      exact List.any_eq_true.mpr ⟨p, h, by simp [hpk]⟩
    · left
      simpa using h

theorem dictInsert_fresh {κ β : Type} [BEq κ] [LawfulBEq κ] (d : List (κ × β))
    (k : κ) (v : β) (h : ∀ q ∈ d, q.1 ≠ k) : dictInsert d k v = d ++ [(k, v)] := by
  unfold dictInsert
  rw [if_neg]
  intro hc
  rcases List.any_eq_true.mp hc with ⟨q, hq, hqk⟩
  exact h q hq (by simpa using hqk)

theorem sweepBDictAux_mem (l : List TimeSeries) :
    ∀ d D, sweepBDictAux d l = .ok D → ∀ k v, (k, v) ∈ D →
      ((k, v) ∈ d ∧ ∀ ts ∈ l, parsedProvId ts ≠ some k) ∨
      (∃ pre ts post, l = pre ++ ts :: post ∧ v = ts.id ∧ parsedProvId ts = some k ∧
        ∀ ts' ∈ post, parsedProvId ts' ≠ some k) := by
  induction l with
  | nil =>
    intro d D h k v hm
    simp only [sweepBDictAux, Except.ok.injEq] at h
    subst h
    exact Or.inl ⟨hm, by simp⟩
  | cons ts0 rest ih =>
    intro d D h k v hm
    simp only [sweepBDictAux] at h
    cases he : sweepBEntry ts0 with
    | error e => rw [he] at h; cases h
    | ok o =>
      rw [he] at h
      cases o with
      | none =>
        rcases ih d D h k v hm with ⟨hd, hfree⟩ | ⟨pre, ts, post, hdec, hv, hk, hpost⟩
        · left
          refine ⟨hd, fun ts hts => ?_⟩
          rcases List.mem_cons.mp hts with heq | hts
          · rw [heq, sweepBEntry_ok_none_parsed_none ts0 he]
            simp
          · exact hfree ts hts
        · exact Or.inr ⟨ts0 :: pre, ts, post, by rw [hdec]; rfl, hv, hk, hpost⟩
      | some kv =>
        obtain ⟨k0, v0⟩ := kv
        obtain ⟨hk0, hv0⟩ := (sweepBEntry_eq_ok_some_iff ts0 k0 v0).mp he
        rcases ih (dictInsert d k0 v0) D h k v hm with
          ⟨hd, hfree⟩ | ⟨pre, ts, post, hdec, hv, hk, hpost⟩
        · rcases mem_dictInsert d k0 v0 (k, v) hd with heq | ⟨hdm, hne⟩
          · right
            have hkk : k = k0 := congrArg Prod.fst heq
            have hvv : v = v0 := congrArg Prod.snd heq
            exact ⟨[], ts0, rest, rfl, by rw [hvv, hv0], by rw [hk0, hkk], hfree⟩
          · left
            refine ⟨hdm, fun ts hts => ?_⟩
            rcases List.mem_cons.mp hts with heq | hts
            · rw [heq, hk0]
              intro hc
              exact hne (by simpa using hc.symm)
            · exact hfree ts hts
        · exact Or.inr ⟨ts0 :: pre, ts, post, by rw [hdec]; rfl, hv, hk, hpost⟩

theorem sweepBDictAux_nodup_eq (l : List TimeSeries) :
    ∀ d D, sweepBDictAux d l = .ok D →
      (l.filterMap parsedProvId).Nodup →
      (∀ k ∈ l.filterMap parsedProvId, ∀ q ∈ d, q.1 ≠ k) →
      D = d ++ l.filterMap (fun ts => (parsedProvId ts).map (fun k => (k, ts.id))) := by
  induction l with
  | nil =>
    intro d D h _ _
    simp only [sweepBDictAux, Except.ok.injEq] at h
    simp [h.symm]
  | cons ts0 rest ih =>
    intro d D h hnd hfresh
    simp only [sweepBDictAux] at h
    cases he : sweepBEntry ts0 with
    | error e => rw [he] at h; cases h
    | ok o =>
      rw [he] at h
      cases o with
      | none =>
        have hp0 : parsedProvId ts0 = none := sweepBEntry_ok_none_parsed_none ts0 he
        rw [List.filterMap_cons, hp0] at hnd hfresh ⊢
        exact ih d D h hnd hfresh
      | some kv =>
        obtain ⟨k0, v0⟩ := kv
        obtain ⟨hk0, hv0⟩ := (sweepBEntry_eq_ok_some_iff ts0 k0 v0).mp he
        have h' : sweepBDictAux (dictInsert d k0 v0) rest = .ok D := h
        simp only [List.filterMap_cons, hk0] at hnd hfresh ⊢
        rw [List.nodup_cons] at hnd
        have hfr0 : ∀ q ∈ d, q.1 ≠ k0 := hfresh k0 (List.mem_cons_self _ _)
        rw [dictInsert_fresh d k0 v0 hfr0] at h'
        have hfresh' : ∀ k ∈ rest.filterMap parsedProvId,
            ∀ q ∈ d ++ [(k0, v0)], q.1 ≠ k := by
          intro k hk q hq
          rcases List.mem_append.mp hq with hq | hq
          · exact hfresh k (List.mem_cons_of_mem _ hk) q hq
          · have hq0 : q = (k0, v0) := by simpa using hq
            rw [hq0]
            intro hc
            have hc' : k0 = k := hc
            exact hnd.1 (by rw [hc']; exact hk)
        have hD := ih (d ++ [(k0, v0)]) D h' hnd.2 hfresh'
        rw [hD, hv0]
        simp

theorem pairs_filter_map_eq (l : List TimeSeries) (P : Int → Bool) :
    ((l.filterMap (fun ts => (parsedProvId ts).map (fun k => (k, ts.id)))).filter
        (fun p => P p.1)).map (fun p => p.2)
      = (l.filter (fun ts =>
          match parsedProvId ts with
          | some k => P k
          | none => false)).map (fun ts => ts.id) := by
  induction l with
  | nil => rfl
  | cons ts rest ih =>
    cases hp : parsedProvId ts with
    | none => simp [List.filterMap_cons, List.filter_cons, hp, ih]
    | some k =>
      by_cases hP : P k <;>
        simp [List.filterMap_cons, List.filter_cons, hp, hP, ih]

/-! ## Claims C1, C9 -/

/-- C1 (counterexample): the stale-replica sweep does not delete every
destination record whose parsed `_replicatedInternalId` is absent from the
source — with two destination records both tagged `3` and an empty source,
only the later record's id `11` is deleted, the earlier record (also
tagged `3`, absent from the source) is not; and an unparseable tag aborts
the sweep so that nothing at all is deleted. -/
theorem stale_sweep_claim_counterexample :
    remove_replicated_if_not_in_src []
        [({ id := some 10, metadata := [("_replicatedInternalId", "3")] } : TimeSeries),
         ({ id := some 11, metadata := [("_replicatedInternalId", "3")] } : TimeSeries)]
      = .ok [some 11]
    ∧ parsedProvId
        ({ id := some 10, metadata := [("_replicatedInternalId", "3")] } : TimeSeries)
        = some 3
    ∧ (3 : Int) ∉ src_ids []
    ∧ (some 10 : Option Int) ∉ ([some 11] : List (Option Int))
    ∧ remove_replicated_if_not_in_src []
        [({ id := some 12, metadata := [("_replicatedInternalId", "zz")] } : TimeSeries)]
      = .error .valueError :=
  ⟨by rfl, by rfl, by decide, by decide, by rfl⟩

/-- C1 (amended): whenever the stale-replica sweep completes and the
destination records' parsed `_replicatedInternalId`s are pairwise distinct,
its returned delete list consists, in listing order, of exactly the ids of
the destination records whose parsed id is absent from the current source
ids, and no others (with duplicated provenance ids, only the record
appearing last per id is deleted; an unparseable id aborts the sweep). -/
theorem stale_sweep_deletes_exactly_absent (src dst : List TimeSeries)
    (l : List (Option Int))
    (h : remove_replicated_if_not_in_src src dst = .ok l)
    (hnd : (dst.filterMap parsedProvId).Nodup) :
    l = (dst.filter (staleDeleted src)).map (fun ts => ts.id) := by
  unfold remove_replicated_if_not_in_src at h
  cases hD : sweepBDictAux [] dst with
  | error e => rw [hD] at h; cases h
  | ok D =>
    rw [hD] at h
    have h2 : Except.ok ((D.filter (fun p => !((src_ids src).contains p.1))).map
        (fun p => p.2)) = (Except.ok l : Except PyErr (List (Option Int))) := h
    have hl : l = (D.filter (fun p => !((src_ids src).contains p.1))).map
        (fun p => p.2) := by
      injection h2 with h3
      exact h3.symm
    have hDe := sweepBDictAux_nodup_eq dst [] D hD hnd (by simp)
    have hsd : staleDeleted src = (fun ts =>
        match parsedProvId ts with
        | some k => !((src_ids src).contains k)
        | none => false) := rfl
    rw [hl, hDe, hsd]
    simpa using pairs_filter_map_eq dst (fun k => !((src_ids src).contains k))

/-- Witness for C1's amended theorem at the spec's instance: source ids
`{1, 2}`, destination records tagged `1`, `2`, `3` — exactly the record
tagged `3` is deleted and its destination id `103` is returned. -/
theorem stale_sweep_deletes_exactly_absent_witness :
    remove_replicated_if_not_in_src
        [({ id := some 1 } : TimeSeries), ({ id := some 2 } : TimeSeries)]
        [({ id := some 101, metadata := [("_replicatedInternalId", "1")] } : TimeSeries),
         ({ id := some 102, metadata := [("_replicatedInternalId", "2")] } : TimeSeries),
         ({ id := some 103, metadata := [("_replicatedInternalId", "3")] } : TimeSeries)]
      = .ok [some 103]
    ∧ [(some 103 : Option Int)] =
        (([({ id := some 101, metadata := [("_replicatedInternalId", "1")] } : TimeSeries),
           ({ id := some 102, metadata := [("_replicatedInternalId", "2")] } : TimeSeries),
           ({ id := some 103, metadata := [("_replicatedInternalId", "3")] } : TimeSeries)].filter
          (staleDeleted [({ id := some 1 } : TimeSeries), ({ id := some 2 } : TimeSeries)])).map
          (fun ts => ts.id)) :=
  ⟨by rfl,
   stale_sweep_deletes_exactly_absent
     [({ id := some 1 } : TimeSeries), ({ id := some 2 } : TimeSeries)]
     [({ id := some 101, metadata := [("_replicatedInternalId", "1")] } : TimeSeries),
      ({ id := some 102, metadata := [("_replicatedInternalId", "2")] } : TimeSeries),
      ({ id := some 103, metadata := [("_replicatedInternalId", "3")] } : TimeSeries)]
     [some 103] (by rfl) (by decide)⟩

/-- C9 (confirmed): every id on the stale-replica sweep's delete list
belongs to a destination record that is the last record in listing order
carrying its parsed `_replicatedInternalId` (no record after it carries
the same id) with that id absent from the source — so earlier duplicates
are never deletion candidates. -/
theorem stale_sweep_last_write_wins (src dst : List TimeSeries)
    (l : List (Option Int))
    (h : remove_replicated_if_not_in_src src dst = .ok l) :
    ∀ v ∈ l, ∃ pre ts post k, dst = pre ++ ts :: post ∧ v = ts.id
      ∧ parsedProvId ts = some k ∧ (∀ ts' ∈ post, parsedProvId ts' ≠ some k)
      ∧ k ∉ src_ids src := by
  unfold remove_replicated_if_not_in_src at h
  cases hD : sweepBDictAux [] dst with
  | error e => rw [hD] at h; cases h
  | ok D =>
    rw [hD] at h
    have h2 : Except.ok ((D.filter (fun p => !((src_ids src).contains p.1))).map
        (fun p => p.2)) = (Except.ok l : Except PyErr (List (Option Int))) := h
    have hl : l = (D.filter (fun p => !((src_ids src).contains p.1))).map
        (fun p => p.2) := by
      injection h2 with h3
      exact h3.symm
    intro v hv
    rw [hl] at hv
    rcases List.mem_map.mp hv with ⟨p, hpf, hpv⟩
    rcases List.mem_filter.mp hpf with ⟨hpD, hpP⟩
    rcases sweepBDictAux_mem dst [] D hD p.1 p.2 (by simpa using hpD) with
      hin | ⟨pre, ts, post, hdec, hv', hk, hpost⟩
    · simp at hin
    · exact ⟨pre, ts, post, p.1, hdec, by rw [← hpv, hv'], hk, hpost, by simpa using hpP⟩

/-- Witness for C9's theorem: two destination records both tagged `3`
against an empty source — the single deleted id `11` is the later record's,
and that record has no later duplicate. -/
theorem stale_sweep_last_write_wins_witness :
    ∃ pre ts post k,
      [({ id := some 10, metadata := [("_replicatedInternalId", "3")] } : TimeSeries),
       ({ id := some 11, metadata := [("_replicatedInternalId", "3")] } : TimeSeries)]
        = pre ++ ts :: post
      ∧ (some 11 : Option Int) = ts.id ∧ parsedProvId ts = some k
      ∧ (∀ ts' ∈ post, parsedProvId ts' ≠ some k) ∧ k ∉ src_ids [] :=
  stale_sweep_last_write_wins []
    [({ id := some 10, metadata := [("_replicatedInternalId", "3")] } : TimeSeries),
     ({ id := some 11, metadata := [("_replicatedInternalId", "3")] } : TimeSeries)]
    [some 11] (by rfl) (some 11) (List.mem_cons_self _ _)

/-! ## Lemmas about the service-account filter -/

theorem strContainsChars_iff (hay pat : List Char) :
    strContainsChars hay pat = true ↔ ∃ pre post, hay = pre ++ pat ++ post := by
  induction hay with
  | nil =>
    rw [strContainsChars]
    constructor
    · intro h
      simp only [Bool.or_false] at h
      have hp : pat <+: ([] : List Char) := List.isPrefixOf_iff_prefix.mp h
      have : pat = [] := List.prefix_nil.mp hp
      exact ⟨[], [], by simp [this]⟩
    · rintro ⟨pre, post, he⟩
      have h1 : pre ++ pat ++ post = [] := he.symm
      simp only [List.append_eq_nil] at h1
      rw [h1.1.2]
      rfl
  | cons c t ih =>
    rw [strContainsChars]
    constructor
    · intro h
      rcases Bool.or_eq_true_iff.mp h with h | h
      · obtain ⟨r, hr⟩ := List.isPrefixOf_iff_prefix.mp h
        exact ⟨[], r, by rw [← hr]; rfl⟩
      · obtain ⟨pre, post, ht⟩ := ih.mp h
        exact ⟨c :: pre, post, by rw [ht]; rfl⟩
    · rintro ⟨pre, post, he⟩
      apply Bool.or_eq_true_iff.mpr
      cases pre with
      | nil =>
        left
        apply List.isPrefixOf_iff_prefix.mpr
        exact ⟨post, by simpa using he.symm⟩
      | cons c' pre' =>
        right
        apply ih.mpr
        have h1 : c = c' ∧ t = pre' ++ pat ++ post := by
          rw [List.cons_append, List.cons_append] at he
          exact ⟨by injection he, by injection he⟩
        exact ⟨pre', post, h1.2⟩

theorem filter_away_ok (l : List TimeSeries) (h : ∀ ts ∈ l, ts.name.isSome) :
    filter_away_service_account_ts l =
      .ok (l.filter (fun ts => !pyInStr "service_account_metrics" (ts.name.getD ""))) := by
  induction l with
  | nil => rfl
  | cons ts rest ih =>
    have hts : ts.name.isSome := h ts (List.mem_cons_self _ _)
    cases hn : ts.name with
    | none => rw [hn] at hts; cases hts
    | some n =>
      rw [filter_away_service_account_ts, hn,
        ih (fun t ht => h t (List.mem_cons_of_mem _ ht)), List.filter_cons]
      by_cases hc : pyInStr "service_account_metrics" n
      · simp [Except.map, hn, hc]
      · simp [Except.map, hn, hc]

/-! ## Claim C10 -/

/-- C10 (confirmed): on a listing whose records all have non-null names,
the service-account filter succeeds and returns, in input order (a sublist
of the input), exactly those time series whose name does not contain the
substring `service_account_metrics` — exclusion is by substring containment
(a decomposition `pre ++ "service_account_metrics" ++ post` of the name's
characters), not by name equality. -/
theorem filter_away_exactly_substring (l : List TimeSeries)
    (h : ∀ ts ∈ l, ts.name.isSome) :
    ∃ r, filter_away_service_account_ts l = .ok r
      ∧ r.Sublist l
      ∧ (∀ ts : TimeSeries, ts ∈ r ↔ ts ∈ l ∧
          ¬∃ pre post, (ts.name.getD "").toList =
            pre ++ "service_account_metrics".toList ++ post) := by
  refine ⟨_, filter_away_ok l h, List.filter_sublist _, fun ts => ?_⟩
  rw [List.mem_filter]
  have hiff := strContainsChars_iff (ts.name.getD "").toList
    "service_account_metrics".toList
  constructor
  · rintro ⟨hm, hp⟩
    refine ⟨hm, fun hex => ?_⟩
    have hc : strContainsChars (ts.name.getD "").toList
        "service_account_metrics".toList = true := hiff.mpr hex
    rw [show pyInStr "service_account_metrics" (ts.name.getD "") =
      strContainsChars (ts.name.getD "").toList
        "service_account_metrics".toList from rfl, hc] at hp
    simp at hp
  · rintro ⟨hm, hne⟩
    refine ⟨hm, ?_⟩
    cases hcc : strContainsChars (ts.name.getD "").toList
        "service_account_metrics".toList with
    | false =>
      rw [show pyInStr "service_account_metrics" (ts.name.getD "") =
        strContainsChars (ts.name.getD "").toList
          "service_account_metrics".toList from rfl, hcc]
      rfl
    | true => exact absurd (hiff.mp hcc) hne

/-- Witness for C10's theorem: one ordinary name kept, one name that merely
contains the substring filtered away. -/
theorem filter_away_exactly_substring_witness :
    ∃ r, filter_away_service_account_ts
        [({ id := some 1, name := some "temperature" } : TimeSeries),
         ({ id := some 2, name := some "xx_service_account_metrics_yy" } : TimeSeries)]
      = .ok r
      ∧ r.Sublist
          [({ id := some 1, name := some "temperature" } : TimeSeries),
           ({ id := some 2, name := some "xx_service_account_metrics_yy" } : TimeSeries)]
      ∧ (∀ ts : TimeSeries, ts ∈ r ↔
          ts ∈ [({ id := some 1, name := some "temperature" } : TimeSeries),
                ({ id := some 2, name := some "xx_service_account_metrics_yy" } : TimeSeries)]
          ∧ ¬∃ pre post, (ts.name.getD "").toList =
              pre ++ "service_account_metrics".toList ++ post) :=
  filter_away_exactly_substring
    [({ id := some 1, name := some "temperature" } : TimeSeries),
     ({ id := some 2, name := some "xx_service_account_metrics_yy" } : TimeSeries)]
    (by decide)

/-! ## Lemmas about the effect traces of `copy_ts`, `thread` and
`replicate` -/

theorem mem_copy_ts (e : Effect) (src_ts : List TimeSeries)
    (m1 : List (Int × TimeSeries)) (m2 : List (Int × Int)) (proj : String)
    (rt : Int) (h : e ∈ copy_ts src_ts m1 m2 proj rt) :
    (∃ its, e = .createCall its) ∨ (∃ its, e = .updateCall its) := by
  unfold copy_ts at h
  rcases hmk : make_objects_batch src_ts m1 m2 proj rt with ⟨c, u, z⟩
  rw [hmk] at h
  rcases List.mem_append.mp h with h | h
  · left
    refine ⟨c, ?_⟩
    by_cases hc : c.isEmpty
    · rw [if_pos hc] at h
      cases h
    · rw [if_neg hc] at h
      simpa using h
  · right
    refine ⟨u, ?_⟩
    by_cases hu : u.isEmpty
    · rw [if_pos hu] at h
      cases h
    · rw [if_neg hu] at h
      simpa using h

theorem chunkList_ne_nil {α : Type} (n : Nat) (l : List α) (h : l ≠ []) :
    chunkList n l ≠ [] := by
  rw [chunkList]
  rw [if_neg (by simpa using h)]
  by_cases hn : n = 0
  · rw [if_pos hn]
    simp
  · rw [if_neg hn]
    simp

theorem thread_spawn_exists (num_threads : Nat) (src_objects : List TimeSeries)
    (m1 : List (Int × TimeSeries)) (m2 : List (Int × Int)) (proj : String)
    (rt : Int) (hne : src_objects ≠ []) :
    ∃ ch, Effect.threadSpawn ch ∈ thread num_threads src_objects m1 m2 proj rt := by
  unfold thread
  have h1 := chunkList_ne_nil
    ((src_objects.length + num_threads - 1) / num_threads) src_objects hne
  obtain ⟨ch, rest, hc⟩ := List.exists_cons_of_ne_nil h1
  refine ⟨ch, ?_⟩
  show Effect.threadSpawn ch ∈
    (chunkList ((src_objects.length + num_threads - 1) / num_threads)
      src_objects).flatMap
      (fun chunk => Effect.threadSpawn chunk :: copy_ts chunk m1 m2 proj rt)
  rw [hc]
  exact List.mem_flatMap.mpr ⟨ch, by simp, by simp⟩

theorem mem_thread (e : Effect) (num_threads : Nat) (src_objects : List TimeSeries)
    (m1 : List (Int × TimeSeries)) (m2 : List (Int × Int)) (proj : String)
    (rt : Int) (h : e ∈ thread num_threads src_objects m1 m2 proj rt) :
    (∃ ch, e = .threadSpawn ch) ∨ (∃ its, e = .createCall its)
      ∨ (∃ its, e = .updateCall its) := by
  unfold thread at h
  rcases List.mem_flatMap.mp h with ⟨ch, _, hm⟩
  rcases List.mem_cons.mp hm with he | he
  · exact Or.inl ⟨ch, he⟩
  · exact Or.inr (mem_copy_ts e ch m1 m2 proj rt he)

theorem mem_copyPhase (e : Effect) (f : List TimeSeries)
    (m1 : List (Int × TimeSeries)) (m2 : List (Int × Int)) (proj : String)
    (rt : Int) (b n : Nat) (h : e ∈ copyPhase f m1 m2 proj rt b n) :
    (∃ ch, e = .threadSpawn ch) ∨ (∃ its, e = .createCall its)
      ∨ (∃ its, e = .updateCall its) := by
  unfold copyPhase at h
  by_cases hgt : f.length > b
  · rw [if_pos hgt] at h
    exact mem_thread e n f m1 m2 proj rt h
  · rw [if_neg hgt] at h
    exact Or.inr (mem_copy_ts e f m1 m2 proj rt h)

theorem copyPhase_no_delete (ids : List (Option Int)) (f : List TimeSeries)
    (m1 : List (Int × TimeSeries)) (m2 : List (Int × Int)) (proj : String)
    (rt : Int) (b n : Nat) :
    Effect.deleteCall ids ∉ copyPhase f m1 m2 proj rt b n := by
  intro h
  rcases mem_copyPhase _ f m1 m2 proj rt b n h with ⟨ch, he⟩ | ⟨its, he⟩ | ⟨its, he⟩ <;>
    cases he

theorem copyPhase_no_spawn_of_le (ch : List TimeSeries) (f : List TimeSeries)
    (m1 : List (Int × TimeSeries)) (m2 : List (Int × Int)) (proj : String)
    (rt : Int) (b n : Nat) (hle : f.length ≤ b) :
    Effect.threadSpawn ch ∉ copyPhase f m1 m2 proj rt b n := by
  intro h
  unfold copyPhase at h
  rw [if_neg (Nat.not_lt.mpr hle)] at h
  rcases mem_copy_ts _ f m1 m2 proj rt h with ⟨its, he⟩ | ⟨its, he⟩ <;> cases he

theorem replicate_trace_split (ts_src ts_dst assets_dst : List TimeSeries)
    (proj : String) (rt : Int) (b n : Nat) (f1 f2 : Bool)
    (f : List TimeSeries)
    (hf : filter_away_service_account_ts ts_src = .ok f) :
    ∃ tail, (replicate ts_src ts_dst assets_dst proj rt b n f1 f2).1 =
        copyPhase f (make_id_object_map ts_dst) (existing_mapping assets_dst)
          proj rt b n ++ tail
      ∧ ∀ e ∈ tail, ∃ ids, e = .deleteCall ids := by
  unfold replicate
  rw [hf]
  cases f1 with
  | false =>
    cases f2 with
    | false => exact ⟨[], by simp, by simp⟩
    | true =>
      cases hA : remove_not_replicated_in_dst ts_dst with
      | error e => exact ⟨[], by simp [hA], by simp⟩
      | ok nc => exact ⟨[.deleteCall nc], by simp [hA], by simp⟩
  | true =>
    cases hB : remove_replicated_if_not_in_src ts_src ts_dst with
    | error e => exact ⟨[], by simp [hB], by simp⟩
    | ok diff =>
      cases f2 with
      | false => exact ⟨[.deleteCall diff], by simp [hB], by simp⟩
      | true =>
        cases hA : remove_not_replicated_in_dst ts_dst with
        | error e => exact ⟨[.deleteCall diff], by simp [hB, hA], by simp⟩
        | ok nc =>
          exact ⟨[.deleteCall diff, .deleteCall nc], by simp [hB, hA], by simp⟩

theorem replicate_trace_no_gc (ts_src ts_dst assets_dst : List TimeSeries)
    (proj : String) (rt : Int) (b n : Nat) (f : List TimeSeries)
    (hf : filter_away_service_account_ts ts_src = .ok f) :
    (replicate ts_src ts_dst assets_dst proj rt b n false false).1 =
      copyPhase f (make_id_object_map ts_dst) (existing_mapping assets_dst)
        proj rt b n := by
  unfold replicate
  rw [hf]
  simp

/-! ## Claims C7, C8 -/

/-- C7 (confirmed): in `replicate`, the inline single-pass path is taken
precisely when the filtered source listing fits into one batch — no worker
is spawned if and only if `len(filtered source) <= batch_size`, and in that
case the copy phase is exactly one `copy_ts` pass over the full filtered
list. -/
theorem replicate_inline_iff (ts_src ts_dst assets_dst : List TimeSeries)
    (proj : String) (rt : Int) (batch n : Nat) (f1 f2 : Bool)
    (f : List TimeSeries)
    (hf : filter_away_service_account_ts ts_src = .ok f) :
    ((f.length ≤ batch) ↔ ∀ ch, Effect.threadSpawn ch ∉
        (replicate ts_src ts_dst assets_dst proj rt batch n f1 f2).1)
    ∧ (f.length ≤ batch →
        copyPhase f (make_id_object_map ts_dst) (existing_mapping assets_dst)
            proj rt batch n
          = copy_ts f (make_id_object_map ts_dst) (existing_mapping assets_dst)
              proj rt) := by
  obtain ⟨tail, htr, htail⟩ :=
    replicate_trace_split ts_src ts_dst assets_dst proj rt batch n f1 f2 f hf
  constructor
  · constructor
    · intro hle ch hmem
      rw [htr] at hmem
      rcases List.mem_append.mp hmem with hm | hm
      · exact copyPhase_no_spawn_of_le ch f _ _ proj rt batch n hle hm
      · rcases htail _ hm with ⟨ids, he⟩
        cases he
    · intro hno
      by_contra hgt
      rw [Nat.not_le] at hgt
      have hne : f ≠ [] := by
        intro h0
        rw [h0] at hgt
        simp at hgt
      obtain ⟨ch, hch⟩ := thread_spawn_exists n f (make_id_object_map ts_dst)
        (existing_mapping assets_dst) proj rt hne
      have hmem : Effect.threadSpawn ch ∈ copyPhase f (make_id_object_map ts_dst)
          (existing_mapping assets_dst) proj rt batch n := by
        unfold copyPhase
        rw [if_pos hgt]
        exact hch
      exact hno ch (by rw [htr]; exact List.mem_append.mpr (Or.inl hmem))
  · intro hle
    unfold copyPhase
    rw [if_neg (Nat.not_lt.mpr hle)]

/-- Witness for C7's theorem: one source record, batch size 5 — the listing
fits in one batch, so no worker is spawned and the copy phase is the single
inline pass. -/
theorem replicate_inline_iff_witness :
    (([({ id := some 1, name := some "a" } : TimeSeries)].length ≤ 5) ↔
      ∀ ch, Effect.threadSpawn ch ∉
        (replicate [({ id := some 1, name := some "a" } : TimeSeries)] [] []
          "p" 7 5 1 false false).1)
    ∧ ([({ id := some 1, name := some "a" } : TimeSeries)].length ≤ 5 →
        copyPhase [({ id := some 1, name := some "a" } : TimeSeries)]
            (make_id_object_map []) (existing_mapping []) "p" 7 5 1
          = copy_ts [({ id := some 1, name := some "a" } : TimeSeries)]
              (make_id_object_map []) (existing_mapping []) "p" 7) :=
  replicate_inline_iff [({ id := some 1, name := some "a" } : TimeSeries)] [] []
    "p" 7 5 1 false false [({ id := some 1, name := some "a" } : TimeSeries)]
    (by rfl)

/-- C8 (confirmed): garbage collection is opt-in — with both delete flags
false (their default values) `replicate` issues no delete call at all
against the destination store, while each sweep's delete call is issued
when its flag is set (and the sweep, and for sweep A any preceding sweep B,
completes). -/
theorem replicate_gc_opt_in (ts_src ts_dst assets_dst : List TimeSeries)
    (proj : String) (rt : Int) (b n : Nat) :
    (∀ ids, Effect.deleteCall ids ∉
        (replicate ts_src ts_dst assets_dst proj rt b n false false).1)
    ∧ (∀ (f2 : Bool) (f : List TimeSeries) (diff : List (Option Int)),
        filter_away_service_account_ts ts_src = .ok f →
        remove_replicated_if_not_in_src ts_src ts_dst = .ok diff →
        Effect.deleteCall diff ∈
          (replicate ts_src ts_dst assets_dst proj rt b n true f2).1)
    ∧ (∀ (f1 : Bool) (f : List TimeSeries) (nc : List (Option Int)),
        filter_away_service_account_ts ts_src = .ok f →
        remove_not_replicated_in_dst ts_dst = .ok nc →
        (f1 = false ∨ ∃ diff, remove_replicated_if_not_in_src ts_src ts_dst = .ok diff) →
        Effect.deleteCall nc ∈
          (replicate ts_src ts_dst assets_dst proj rt b n f1 true).1) := by
  refine ⟨?_, ?_, ?_⟩
  · intro ids hmem
    cases hfa : filter_away_service_account_ts ts_src with
    | error e =>
      rw [show (replicate ts_src ts_dst assets_dst proj rt b n false false).1 = [] by
        unfold replicate; rw [hfa]] at hmem
      cases hmem
    | ok f =>
      rw [replicate_trace_no_gc ts_src ts_dst assets_dst proj rt b n f hfa] at hmem
      exact copyPhase_no_delete ids f _ _ proj rt b n hmem
  · intro f2 f diff hfa hB
    unfold replicate
    rw [hfa, hB]
    cases f2 with
    | false => simp
    | true =>
      cases hA : remove_not_replicated_in_dst ts_dst with
      | error e => simp [hA]
      | ok nc => simp [hA]
  · intro f1 f nc hfa hA hpre
    unfold replicate
    rw [hfa, hA]
    cases f1 with
    | false => simp
    | true =>
      rcases hpre with hpre | ⟨diff, hB⟩
      · cases hpre
      · rw [hB]
        simp

/-- Witness for C8's theorem: with both flags false no delete call appears;
with the stale-replica flag set, the delete call for the destination record
tagged `3` (absent from the empty source) appears; with only the orphan
flag set, the (here empty) orphan delete call appears. -/
theorem replicate_gc_opt_in_witness :
    (∀ ids, Effect.deleteCall ids ∉
        (replicate []
          [({ id := some 10, metadata := [("_replicatedInternalId", "3")] } : TimeSeries)]
          [] "p" 7 5 1 false false).1)
    ∧ Effect.deleteCall [some 10] ∈
        (replicate []
          [({ id := some 10, metadata := [("_replicatedInternalId", "3")] } : TimeSeries)]
          [] "p" 7 5 1 true false).1
    ∧ Effect.deleteCall [] ∈
        (replicate []
          [({ id := some 20,
              metadata := [("_replicatedSource", "p"), ("_replicatedInternalId", "3")] } : TimeSeries)]
          [] "p" 7 5 1 false true).1 :=
  ⟨(replicate_gc_opt_in []
      [({ id := some 10, metadata := [("_replicatedInternalId", "3")] } : TimeSeries)]
      [] "p" 7 5 1).1,
   (replicate_gc_opt_in []
      [({ id := some 10, metadata := [("_replicatedInternalId", "3")] } : TimeSeries)]
      [] "p" 7 5 1).2.1 false [] [some 10] (by rfl) (by rfl),
   (replicate_gc_opt_in []
      [({ id := some 20,
          metadata := [("_replicatedSource", "p"), ("_replicatedInternalId", "3")] } : TimeSeries)]
      [] "p" 7 5 1).2.2 false [] [] (by rfl) (by rfl) (Or.inl rfl)⟩

end CogniteReplicator
